import Mathlib

/-!
Verification of the subpixel template-matching tracker
(`template_matching.py`): a shallow embedding of the ROI computation,
Python-style matrix indexing (`__pull_matrix`), the subpixel coordinate
remap (`__find_max_subpixel_roi`) and the two tracking loops
(`template_tracking`, `template_tracking_dual`).

Frames, templates and correlation surfaces are lists of rows of rational
scores; positions are rational pairs `(x, y)`.  The external collaborators
(`cv2.matchTemplate` / `cv2.minMaxLoc`, `scipy` interpolation and
`scipy.optimize.fmin`) are out of the repository: correlation and the
local minimizer enter the embedding as explicit primitives, with
`cv2.minMaxLoc` and the correlation contract modelled from the spec.
-/

/-- A 2D grid (frame, template or correlation surface): a list of rows. -/
abbrev Mat := List (List ℚ)

/-- Python indexing `l[i]`: a negative index wraps from the end
(`l[len + i]`); an index outside `[-len, len)` raises `IndexError`,
modelled as `none`. -/
def pyGet (l : List α) (i : Int) : Option α :=
  if 0 ≤ i then l.get? i.toNat
  else if -i ≤ (l.length : Int) then l.get? ((l.length : Int) + i).toNat
  else none

/-- Effective bound of a Python slice endpoint: negative endpoints count
from the end, and both ends are clamped into `[0, len]`. -/
def pySliceIdx (len : Nat) (i : Int) : Nat :=
  if i < 0 then ((len : Int) + i).toNat else min i.toNat len

/-- Python slicing `l[a:b]` (step 1): never raises, silently clamps. -/
def pySlice (l : List α) (a b : Int) : List α :=
  (l.take (pySliceIdx l.length b)).drop (pySliceIdx l.length a)

/-- Entry of a grid at row `r`, column `c` (`none` when out of range). -/
def getE (m : Mat) (r c : Nat) : Option ℚ :=
  m.get? r |>.bind fun row => row.get? c

/-- `np.around` on an exact rational: round half to even. -/
def roundHalfEven (q : ℚ) : Int :=
  if Int.fract q < 1/2 then ⌊q⌋
  else if 1/2 < Int.fract q then ⌊q⌋ + 1
  else if ⌊q⌋ % 2 = 0 then ⌊q⌋ else ⌊q⌋ + 1

/-- The ROI rectangle `[xs, xe) × [ys, ye)` computed by
`__find_max_subpixel_roi` before slicing the frame. -/
structure RoiRect where
  xs : Int
  xe : Int
  ys : Int
  ye : Int
  deriving Repr, DecidableEq

/-- Lines 30-37 of `template_matching.py`: round the template-centred
window extended by `offset`, clamp the start coordinates to `≥ 0` and the
end coordinates to `≤ dim − 1`. -/
def computeRoi (fh fw : Nat) (h w : Nat) (pos : ℚ × ℚ) (offset : ℚ) : RoiRect :=
  let xs0 := roundHalfEven (pos.1 - (w : ℚ)/2 - offset)
  let xs := if xs0 < 0 then 0 else xs0
  let xe0 := roundHalfEven (pos.1 + (w : ℚ)/2 + offset)
  let xe := if (fw : Int) ≤ xe0 then (fw : Int) - 1 else xe0
  let ys0 := roundHalfEven (pos.2 - (h : ℚ)/2 - offset)
  let ys := if ys0 < 0 then 0 else ys0
  let ye0 := roundHalfEven (pos.2 + (h : ℚ)/2 + offset)
  let ye := if (fh : Int) ≤ ye0 then (fh : Int) - 1 else ye0
  ⟨xs, xe, ys, ye⟩

/-- `frame[ys:ye, xs:xe]`: numpy basic slicing, i.e. Python slicing of the
rows and of each row. -/
def sliceRoi (frame : Mat) (r : RoiRect) : Mat :=
  (pySlice frame r.ys r.ye).map fun row => pySlice row r.xs r.xe

/-- `m.shape` of a 2D array: `(height, width)`. -/
def shapeOf (m : Mat) : Nat × Nat := (m.length, (m.headD []).length)

/-- The row loop of `__pull_matrix`: starting at row index `i`, take `n`
rows by Python indexing and slice each to columns `[mx-k, mx+k+1)`;
an out-of-range row raises (`none`). -/
def seqRows (frame : Mat) (mx : Int) (k : Nat) : Int → Nat → Option Mat
  | _, 0 => some []
  | i, n + 1 =>
    match pyGet frame i with
    | none => none
    | some row =>
      match seqRows frame mx k (i + 1) n with
      | none => none
      | some rest => some (pySlice row (mx - (k : Int)) (mx + (k : Int) + 1) :: rest)

/-- `__pull_matrix(size, frame, loc)` (lines 20-25): the square window of
half-width `k = (size−1)/2` around `loc = (x, y)`, rows by Python indexing
(negative wraps, overflow raises), columns by Python slicing. -/
def pull_matrix (size : Nat) (frame : Mat) (loc : Int × Int) : Option Mat :=
  let k := (size - 1) / 2
  seqRows frame loc.1 k (loc.2 - (k : Int)) (2 * k + 1)

/-- All entries of a surface as `((x, y), value)` with `x` the column and
`y` the row, in row-major order. -/
def surfaceEntries (res : Mat) : List ((Nat × Nat) × ℚ) :=
  (List.range res.length).flatMap fun r =>
    (List.range (res.getD r []).length).map fun c =>
      ((c, r), (res.getD r []).getD c 0)

/-- Modelled from the spec: `cv2.minMaxLoc`'s maximum location (§4.2
"locate its discrete (integer-pixel) global maximum `(mx, my)`"), as an
argmax over the surface entries; `(0, 0)` on an empty surface. -/
def minMaxLoc (res : Mat) : Nat × Nat :=
  match (surfaceEntries res).argmax (fun e => e.2) with
  | some e => (e.1.1, e.1.2)
  | none => (0, 0)

/-- The external collaborators of the core (§6): the correlation primitive
(`cv2.matchTemplate`, fallible) and the interpolation-plus-local-minimizer
stage (`scipy.interpolate.interp2d` + `scipy.optimize.fmin`), which is
never an error and returns whatever candidate it stops at (§4.4). -/
structure Primitives where
  matchTemplate : Mat → Mat → Option Mat
  minimize : Mat → Nat → ℚ × ℚ

/-- The ROI rectangle of a frame/template/position/margin combination as
computed by `__find_max_subpixel_roi`. -/
def rectOf (frame templ : Mat) (pos : ℚ × ℚ) (offset : ℚ) : RoiRect :=
  computeRoi (shapeOf frame).1 (shapeOf frame).2
    (shapeOf templ).1 (shapeOf templ).2 pos offset

/-- The ROI pixel data `frame[ys:ye, xs:xe]` handed to the correlation
primitive. -/
def roiOf (frame templ : Mat) (pos : ℚ × ℚ) (offset : ℚ) : Mat :=
  sliceRoi frame (rectOf frame templ pos offset)

/-- `__find_max_subpixel_roi` (lines 27-58): compute the clamped ROI,
slice it from the frame, correlate, locate the discrete maximum, pull the
peak window, run the local minimizer, and remap
`nx = mx − (2 − sx) + w/2`, `ny = my − (2 − sy) + h/2`, then add
`(xs, ys)`.  Errors of the collaborators propagate as `none`. -/
def find_max_subpixel_roi (P : Primitives) (frame templ : Mat) (pos : ℚ × ℚ)
    (offset : ℚ) (matsize : Nat) : Option (ℚ × ℚ) :=
  (P.matchTemplate (roiOf frame templ pos offset) templ).bind fun res =>
    (pull_matrix matsize res (((minMaxLoc res).1 : Int), ((minMaxLoc res).2 : Int))).map
      fun mat =>
        let s := P.minimize mat matsize
        (((rectOf frame templ pos offset).xs : ℚ) +
            (((minMaxLoc res).1 : ℚ) - (2 - s.1) + ((shapeOf templ).2 : ℚ) / 2),
          ((rectOf frame templ pos offset).ys : ℚ) +
            (((minMaxLoc res).2 : ℚ) - (2 - s.2) + ((shapeOf templ).1 : ℚ) / 2))

/-- `template_tracking` (lines 63-84): thread the current position through
the frames, appending each refined position; a per-frame error aborts the
whole trajectory. -/
def template_tracking (P : Primitives) (frames : List Mat) (template : Mat)
    (initial : ℚ × ℚ) (offset : ℚ) (matsize : Nat) : Option (List (ℚ × ℚ)) :=
  match frames with
  | [] => some []
  | f :: fs =>
    (find_max_subpixel_roi P f template initial offset matsize).bind fun p =>
      (template_tracking P fs template p offset matsize).map fun rest => p :: rest

/-- `template_tracking_dual` (lines 86-112): two independent position
chains over the same frames, left updated before right each frame. -/
def template_tracking_dual (P : Primitives) (frames : List Mat)
    (left_template right_template : Mat) (initial : (ℚ × ℚ) × (ℚ × ℚ))
    (offset : ℚ) (matsize : Nat) : Option (List ((ℚ × ℚ) × (ℚ × ℚ))) :=
  match frames with
  | [] => some []
  | f :: fs =>
    (find_max_subpixel_roi P f left_template initial.1 offset matsize).bind fun pl =>
      (find_max_subpixel_roi P f right_template initial.2 offset matsize).bind fun pr =>
        (template_tracking_dual P fs left_template right_template (pl, pr) offset matsize).map
          fun rest => (pl, pr) :: rest

/-- Modelled from the spec: the contract of the external correlation
primitive (§4.2, §6) — it fails exactly when the ROI is smaller than the
template in either dimension, and otherwise returns a surface of size
`(roi_h − templ_h + 1) × (roi_w − templ_w + 1)`. -/
structure MatchSpec (mt : Mat → Mat → Option Mat) : Prop where
  small : ∀ roi t, (shapeOf roi).1 < (shapeOf t).1 ∨ (shapeOf roi).2 < (shapeOf t).2 →
    mt roi t = none
  ok : ∀ roi t, (shapeOf t).1 ≤ (shapeOf roi).1 → (shapeOf t).2 ≤ (shapeOf roi).2 →
    ∃ res, mt roi t = some res ∧
      res.length = (shapeOf roi).1 - (shapeOf t).1 + 1 ∧
      ∀ row ∈ res, row.length = (shapeOf roi).2 - (shapeOf t).2 + 1

/-- Modelled from the spec: a concrete correlation primitive satisfying
the §6 contract, returning a constant-zero surface of the mandated size. -/
def specMatchTemplate (roi t : Mat) : Option Mat :=
  if (shapeOf roi).1 < (shapeOf t).1 ∨ (shapeOf roi).2 < (shapeOf t).2 then none
  else some (List.replicate ((shapeOf roi).1 - (shapeOf t).1 + 1)
    (List.replicate ((shapeOf roi).2 - (shapeOf t).2 + 1) 0))

/-- A trivial primitive pack used for concrete evaluations: the spec-shaped
correlation and a minimizer that always stops at `(2, 2)`. -/
def trivP : Primitives :=
  ⟨specMatchTemplate, fun _ _ => (2, 2)⟩

/-- A primitive pack whose collaborators are constant functions, used to
instantiate theorems on concrete runs. -/
def constP : Primitives :=
  ⟨fun _ _ => some [[1]], fun _ _ => (2, 2)⟩

/-- All four indices of a ROI rectangle lie inside an `fh × fw` frame. -/
def RoiWithinFrame (R : RoiRect) (fh fw : Nat) : Prop :=
  0 ≤ R.xs ∧ R.xs < (fw : Int) ∧ 0 ≤ R.xe ∧ R.xe < (fw : Int) ∧
    0 ≤ R.ys ∧ R.ys < (fh : Int) ∧ 0 ≤ R.ye ∧ R.ye < (fh : Int)

/-! ### Python indexing and slicing -/

theorem pyGet_eq_none_iff (l : List α) (i : Int) :
    pyGet l i = none ↔ (l.length : Int) ≤ i ∨ i < -(l.length : Int) := by
  unfold pyGet
  split_ifs with h0 h1
  · rw [List.get?_eq_none]
    omega
  · have hlt : ((l.length : Int) + i).toNat < l.length := by omega
    simp only [List.get?_eq_none]
    omega
  · simp only [true_iff]
    omega

theorem pyGet_nonneg (l : List α) (i : Int) (h0 : 0 ≤ i) :
    pyGet l i = l.get? i.toNat := by
  unfold pyGet
  simp [h0]

theorem pyGet_neg (l : List α) (i : Int) (h0 : i < 0) (h1 : -i ≤ (l.length : Int)) :
    pyGet l i = l.get? ((l.length : Int) + i).toNat := by
  unfold pyGet
  rw [if_neg (by omega), if_pos h1]

theorem pyGet_isSome (l : List α) (i : Int) (h0 : -(l.length : Int) ≤ i)
    (h1 : i < (l.length : Int)) : (pyGet l i).isSome := by
  rw [Option.isSome_iff_ne_none]
  intro h
  rw [pyGet_eq_none_iff] at h
  omega

theorem pySlice_get? (l : List α) (a b : Int) (ha : 0 ≤ a) (hb : b ≤ (l.length : Int))
    (c : Nat) (hc : a + c < b) :
    (pySlice l a b).get? c = l.get? (a.toNat + c) := by
  have hab : a < b := by omega
  have hps_a : pySliceIdx l.length a = a.toNat := by
    unfold pySliceIdx
    rw [if_neg (by omega)]
    omega
  have hps_b : pySliceIdx l.length b = b.toNat := by
    unfold pySliceIdx
    rw [if_neg (by omega)]
    omega
  unfold pySlice
  rw [hps_a, hps_b, List.get?_drop, List.get?_take (by omega)]

theorem pySlice_length (l : List α) (a b : Int) (ha : 0 ≤ a) (hab : a ≤ b)
    (hb : b ≤ (l.length : Int)) :
    (pySlice l a b).length = (b - a).toNat := by
  have hps_a : pySliceIdx l.length a = a.toNat := by
    unfold pySliceIdx
    rw [if_neg (by omega)]
    omega
  have hps_b : pySliceIdx l.length b = b.toNat := by
    unfold pySliceIdx
    rw [if_neg (by omega)]
    omega
  unfold pySlice
  rw [hps_a, hps_b, List.length_drop, List.length_take]
  omega

/-! ### Rounding -/

theorem roundHalfEven_ge_floor (q : ℚ) : ⌊q⌋ ≤ roundHalfEven q := by
  unfold roundHalfEven
  split_ifs <;> omega

theorem roundHalfEven_le_ceil (q : ℚ) : roundHalfEven q ≤ ⌈q⌉ := by
  have hfc : ⌊q⌋ ≤ ⌈q⌉ := Int.floor_le_ceil q
  have key : Int.fract q ≠ 0 → ⌊q⌋ + 1 ≤ ⌈q⌉ := by
    intro hne
    have h1 : (⌊q⌋ : ℚ) < q := by
      have := Int.fract_nonneg q
      have heq : Int.fract q = q - ⌊q⌋ := rfl
      have : (0:ℚ) < q - ⌊q⌋ := lt_of_le_of_ne (by rw [← heq]; exact this)
        (by rw [← heq]; exact fun h => hne h.symm)
      linarith
    have h2 : (⌊q⌋ : ℚ) < (⌈q⌉ : ℚ) := lt_of_lt_of_le h1 (Int.le_ceil q)
    have h3 : ⌊q⌋ < ⌈q⌉ := by exact_mod_cast h2
    omega
  unfold roundHalfEven
  split_ifs with h1 h2 h3
  · exact hfc
  · exact key (by intro h; rw [h] at h2; norm_num at h2)
  · exact hfc
  · exact key (by intro h; rw [h] at h1; norm_num at h1)

theorem roundHalfEven_nonneg (q : ℚ) (h : 0 ≤ q) : 0 ≤ roundHalfEven q :=
  le_trans (by rwa [Int.floor_nonneg]) (roundHalfEven_ge_floor q)

theorem roundHalfEven_le_of_le (q : ℚ) (z : Int) (h : q ≤ (z : ℚ)) :
    roundHalfEven q ≤ z := by
  have h1 : ⌈q⌉ ≤ ⌈(z : ℚ)⌉ := Int.ceil_le_ceil h
  rw [Int.ceil_intCast] at h1
  exact le_trans (roundHalfEven_le_ceil q) h1

/-! ### The peak-window row loop -/

theorem seqRows_eq_none_iff (frame : Mat) (mx : Int) (k : Nat) (i : Int) (n : Nat) :
    seqRows frame mx k i n = none ↔ ∃ r : Nat, r < n ∧ pyGet frame (i + r) = none := by
  induction n generalizing i with
  | zero =>
    simp [seqRows]
  | succ m ih =>
    unfold seqRows
    cases hg : pyGet frame i with
    | none =>
      simp only [true_iff]
      exact ⟨0, by omega, by simpa using hg⟩
    | some row =>
      cases hs : seqRows frame mx k (i + 1) m with
      | none =>
        rw [ih] at hs
        obtain ⟨r, hr, hnone⟩ := hs
        simp only [true_iff]
        exact ⟨r + 1, by omega, by rw [show i + (↑(r + 1) : Int) = i + 1 + r by push_cast; ring]; exact hnone⟩
      | some rest =>
        simp only [reduceCtorEq, false_iff, not_exists, not_and]
        have hno : ∀ r' : Nat, r' < m → pyGet frame (i + 1 + r') ≠ none := by
          intro r' hr' hcon
          have hn : seqRows frame mx k (i + 1) m = none := (ih (i + 1)).mpr ⟨r', hr', hcon⟩
          rw [hs] at hn
          exact Option.noConfusion hn
        intro r hr
        match r with
        | 0 =>
          intro hcon
          rw [show i + ((0 : Nat) : Int) = i by push_cast; ring, hg] at hcon
          exact Option.noConfusion hcon
        | Nat.succ r' =>
          intro hcon
          exact hno r' (by omega)
            (by rw [show i + 1 + (r' : Int) = i + ((r' + 1 : Nat) : Int) by push_cast; ring]; exact hcon)

theorem seqRows_eq_some (frame : Mat) (mx : Int) (k : Nat) (i : Int) (n : Nat)
    (h : ∀ r : Nat, r < n → (pyGet frame (i + r)).isSome) :
    ∃ mat, seqRows frame mx k i n = some mat ∧ mat.length = n ∧
      ∀ r : Nat, r < n →
        mat.get? r = (pyGet frame (i + r)).map
          (fun row => pySlice row (mx - (k : Int)) (mx + (k : Int) + 1)) := by
  induction n generalizing i with
  | zero =>
    exact ⟨[], rfl, rfl, fun r hr => absurd hr (by omega)⟩
  | succ m ih =>
    have h0 : (pyGet frame i).isSome := by simpa using h 0 (by omega)
    obtain ⟨row, hrow⟩ := Option.isSome_iff_exists.mp h0
    obtain ⟨rest, hrest, hlen, hget⟩ := ih (i + 1)
      (fun r hr => by
        rw [show i + 1 + (r : Int) = i + ((r + 1 : Nat) : Int) by push_cast; ring]
        exact h (r + 1) (by omega))
    refine ⟨pySlice row (mx - (k : Int)) (mx + (k : Int) + 1) :: rest, ?_, by simp [hlen], ?_⟩
    · unfold seqRows
      rw [hrow, hrest]
    · intro r hr
      match r with
      | 0 => simp [hrow]
      | Nat.succ r' =>
        simp only [List.get?_cons_succ]
        rw [hget r' (by omega), show i + 1 + (r' : Int) = i + ((r' + 1 : Nat) : Int) by push_cast; ring]

/-- C7 (amended): peak-window extraction raises an out-of-bounds error
exactly when the window's row range leaves Python's valid index range:
`my + k ≥ H` or `my − k < −H` with `k = (size−1)/2` and `H` the surface
height.  Being closer than `k` to the top edge (with `my + k < H`) or to
the left/right edges never raises: negative row indices wrap and column
slices silently clamp. -/
theorem pull_matrix_eq_none_iff (size : Nat) (frame : Mat) (mx my : Int) :
    pull_matrix size frame (mx, my) = none ↔
      (frame.length : Int) ≤ my + ((size - 1) / 2 : Nat) ∨
        my - ((size - 1) / 2 : Nat) < -(frame.length : Int) := by
  unfold pull_matrix
  rw [seqRows_eq_none_iff]
  constructor
  · rintro ⟨r, hr, hnone⟩
    rw [pyGet_eq_none_iff] at hnone
    omega
  · intro h
    rcases h with h | h
    · refine ⟨2 * ((size - 1) / 2), by omega, ?_⟩
      rw [pyGet_eq_none_iff]
      left
      push_cast
      omega
    · refine ⟨0, by omega, ?_⟩
      rw [pyGet_eq_none_iff]
      right
      push_cast
      omega

/-! ### The discrete maximum location -/

theorem getE_eq_some_iff (res : Mat) (r c : Nat) (v : ℚ) :
    getE res r c = some v ↔
      r < res.length ∧ c < (res.getD r []).length ∧ (res.getD r []).getD c 0 = v := by
  unfold getE
  cases hg : res.get? r with
  | none =>
    have hr : res.length ≤ r := List.get?_eq_none.mp hg
    constructor
    · intro h
      exact Option.noConfusion h
    · rintro ⟨h1, -, -⟩
      omega
  | some row =>
    have hr : r < res.length := by
      by_contra hcon
      rw [List.get?_eq_none.mpr (by omega)] at hg
      exact Option.noConfusion hg
    have hD : res.getD r [] = row := by
      rw [List.getD_eq_get?, hg]
      rfl
    rw [Option.some_bind, hD]
    cases hc : row.get? c with
    | none =>
      have hcl := List.get?_eq_none.mp hc
      constructor
      · intro h
        exact Option.noConfusion h
      · rintro ⟨-, h2, -⟩
        omega
    | some x =>
      have hclt : c < row.length := by
        by_contra hcon
        rw [List.get?_eq_none.mpr (by omega)] at hc
        exact Option.noConfusion hc
      have hx : row.getD c 0 = x := by
        rw [List.getD_eq_get?, hc]
        rfl
      constructor
      · intro h
        exact ⟨hr, hclt, by rw [hx]; exact (Option.some.injEq x v ▸ h : x = v)⟩
      · rintro ⟨-, -, h3⟩
        rw [hx] at h3
        rw [h3]

theorem mem_surfaceEntries (res : Mat) (c r : Nat) (v : ℚ) :
    ((c, r), v) ∈ surfaceEntries res ↔ getE res r c = some v := by
  rw [getE_eq_some_iff]
  unfold surfaceEntries
  rw [List.mem_flatMap]
  constructor
  · rintro ⟨a, ha, hmem⟩
    rw [List.mem_range] at ha
    rw [List.mem_map] at hmem
    obtain ⟨b, hb, heq⟩ := hmem
    rw [List.mem_range] at hb
    have h1 : b = c := congrArg (fun p => p.1.1) heq
    have h2 : a = r := congrArg (fun p => p.1.2) heq
    have h3 : (res.getD a []).getD b 0 = v := congrArg (fun p => p.2) heq
    rw [h2] at ha
    rw [h1, h2] at hb
    rw [h1, h2] at h3
    exact ⟨ha, hb, h3⟩
  · rintro ⟨h1, h2, h3⟩
    exact ⟨r, List.mem_range.mpr h1, List.mem_map.mpr ⟨c, List.mem_range.mpr h2, by rw [h3]⟩⟩

theorem minMaxLoc_spec (res : Mat) (r0 c0 : Nat) (v0 : ℚ) (h : getE res r0 c0 = some v0) :
    ∃ mv, getE res (minMaxLoc res).2 (minMaxLoc res).1 = some mv ∧
      ∀ r c : Nat, ∀ v : ℚ, getE res r c = some v → v ≤ mv := by
  have hmem : ((c0, r0), v0) ∈ surfaceEntries res := (mem_surfaceEntries res c0 r0 v0).mpr h
  cases harg : (surfaceEntries res).argmax (fun e => e.2) with
  | none =>
    rw [List.argmax_eq_none] at harg
    rw [harg] at hmem
    exact absurd hmem (List.not_mem_nil _)
  | some e =>
    have hloc : minMaxLoc res = (e.1.1, e.1.2) := by
      unfold minMaxLoc
      rw [harg]
    have he_mem : e ∈ surfaceEntries res := List.argmax_mem harg
    have he_get : getE res e.1.2 e.1.1 = some e.2 := by
      rw [← mem_surfaceEntries]
      exact he_mem
    refine ⟨e.2, by rw [hloc]; exact he_get, ?_⟩
    intro r c v hv
    exact List.le_of_mem_argmax ((mem_surfaceEntries res c r v).mpr hv) harg

/-! ### Tracking loops -/

theorem template_tracking_length (P : Primitives) (frames : List Mat) (templ : Mat)
    (p0 : ℚ × ℚ) (off : ℚ) (ms : Nat) (pts : List (ℚ × ℚ))
    (h : template_tracking P frames templ p0 off ms = some pts) :
    pts.length = frames.length := by
  induction frames generalizing p0 pts with
  | nil =>
    unfold template_tracking at h
    cases h
    rfl
  | cons f fs ih =>
    unfold template_tracking at h
    cases hfind : find_max_subpixel_roi P f templ p0 off ms with
    | none =>
      rw [hfind, Option.none_bind] at h
      exact Option.noConfusion h
    | some p =>
      rw [hfind, Option.some_bind] at h
      cases htrack : template_tracking P fs templ p off ms with
      | none =>
        rw [htrack, Option.map_none'] at h
        exact Option.noConfusion h
      | some rest =>
        rw [htrack, Option.map_some'] at h
        cases h
        simp [ih p rest htrack]

theorem template_tracking_dual_eq (P : Primitives) (frames : List Mat)
    (lt rt : Mat) (pl0 pr0 : ℚ × ℚ) (off : ℚ) (ms : Nat) :
    template_tracking_dual P frames lt rt (pl0, pr0) off ms =
      (template_tracking P frames lt pl0 off ms).bind fun ls =>
        (template_tracking P frames rt pr0 off ms).map fun rs => ls.zip rs := by
  induction frames generalizing pl0 pr0 with
  | nil =>
    rfl
  | cons f fs ih =>
    unfold template_tracking_dual template_tracking
    cases hl : find_max_subpixel_roi P f lt pl0 off ms with
    | none => simp
    | some pl =>
      cases hr : find_max_subpixel_roi P f rt pr0 off ms with
      | none =>
        cases ht : template_tracking P fs lt pl off ms <;> simp [ht]
      | some pr =>
        rw [Option.some_bind, Option.some_bind, Option.some_bind, ih pl pr]
        cases hls : template_tracking P fs lt pl off ms with
        | none => simp
        | some ls =>
          cases hrs : template_tracking P fs rt pr off ms with
          | none => simp [hrs]
          | some rs => simp [hrs]

theorem template_tracking_dual_length (P : Primitives) (frames : List Mat)
    (lt rt : Mat) (q0 : (ℚ × ℚ) × (ℚ × ℚ)) (off : ℚ) (ms : Nat)
    (ps : List ((ℚ × ℚ) × (ℚ × ℚ)))
    (h : template_tracking_dual P frames lt rt q0 off ms = some ps) :
    ps.length = frames.length := by
  obtain ⟨pl0, pr0⟩ := q0
  rw [template_tracking_dual_eq] at h
  cases hls : template_tracking P frames lt pl0 off ms with
  | none =>
    rw [hls, Option.none_bind] at h
    exact Option.noConfusion h
  | some ls =>
    rw [hls, Option.some_bind] at h
    cases hrs : template_tracking P frames rt pr0 off ms with
    | none =>
      rw [hrs, Option.map_none'] at h
      exact Option.noConfusion h
    | some rs =>
      rw [hrs, Option.map_some'] at h
      cases h
      rw [List.length_zip,
        template_tracking_length P frames lt pl0 off ms ls hls,
        template_tracking_length P frames rt pr0 off ms rs hrs]
      omega

theorem specMatchTemplate_spec : MatchSpec specMatchTemplate := by
  constructor
  · intro roi t h
    unfold specMatchTemplate
    rw [if_pos h]
  · intro roi t h1 h2
    refine ⟨List.replicate ((shapeOf roi).1 - (shapeOf t).1 + 1)
        (List.replicate ((shapeOf roi).2 - (shapeOf t).2 + 1) 0),
      ?_, List.length_replicate _ _, ?_⟩
    · unfold specMatchTemplate
      rw [if_neg (by omega)]
    · intro row hrow
      rw [List.eq_of_mem_replicate hrow]
      exact List.length_replicate _ _

/-! ### Claims -/

/-- C1: For every peak window, once the local minimizer returns the
window-local coordinates `(sx, sy)`, the subpixel position returned for
the frame is `nx = mx − (2 − sx) + template_width/2`,
`ny = my − (2 − sy) + template_height/2`, with the ROI origin `(xs, ys)`
added, where `(mx, my)` is the integer-pixel correlation maximum in ROI
coordinates. -/
theorem subpixel_remap_formula (P : Primitives) (frame templ : Mat) (pos : ℚ × ℚ)
    (off : ℚ) (ms : Nat) (res mat : Mat)
    (hres : P.matchTemplate (roiOf frame templ pos off) templ = some res)
    (hmat : pull_matrix ms res (((minMaxLoc res).1 : Int), ((minMaxLoc res).2 : Int)) =
      some mat) :
    find_max_subpixel_roi P frame templ pos off ms =
      some (((rectOf frame templ pos off).xs : ℚ) +
              (((minMaxLoc res).1 : ℚ) - (2 - (P.minimize mat ms).1) +
                ((shapeOf templ).2 : ℚ) / 2),
            ((rectOf frame templ pos off).ys : ℚ) +
              (((minMaxLoc res).2 : ℚ) - (2 - (P.minimize mat ms).2) +
                ((shapeOf templ).1 : ℚ) / 2)) := by
  unfold find_max_subpixel_roi
  rw [hres, Option.some_bind, hmat, Option.map_some']

/-- Witness for C1 at a concrete one-pixel run. -/
theorem subpixel_remap_formula_witness :
    ∃ q : ℚ × ℚ, find_max_subpixel_roi constP [[1]] [[1]] (0, 0) 0 1 = some q :=
  ⟨_, subpixel_remap_formula constP [[1]] [[1]] (0, 0) 0 1 [[1]] [[1]] rfl rfl⟩

/-- C2 counterexample: for a position far beyond the frame border the
clamped end index `xe` is negative, contradicting the claim that the
resulting indices are never negative for every position. -/
theorem roi_bounds_counterexample :
    (computeRoi 100 100 10 10 ((-1000 : ℚ), (-1000 : ℚ)) 50).xe < 0 := by
  norm_num [computeRoi, roundHalfEven, Int.fract]

/-- C2 (amended): for margin `≥ 0` and a position inside the frame
(`0 ≤ x ≤ fw − 1`, `0 ≤ y ≤ fh − 1`), the ROI rectangle is
`xs = round(x − w/2 − margin)` clamped to `≥ 0`,
`xe = round(x + w/2 + margin)` clamped to `≤ fw − 1`, symmetrically for
`ys, ye`, and all four indices lie within the frame bounds. -/
theorem roi_clamp_bounds (fh fw h w : Nat) (pos : ℚ × ℚ) (off : ℚ)
    (hoff : 0 ≤ off) (hfw : 1 ≤ fw) (hfh : 1 ≤ fh)
    (hx0 : 0 ≤ pos.1) (hx1 : pos.1 ≤ ((fw - 1 : Nat) : ℚ))
    (hy0 : 0 ≤ pos.2) (hy1 : pos.2 ≤ ((fh - 1 : Nat) : ℚ)) :
    (computeRoi fh fw h w pos off).xs =
        max 0 (roundHalfEven (pos.1 - (w : ℚ)/2 - off)) ∧
    (computeRoi fh fw h w pos off).xe =
        min (roundHalfEven (pos.1 + (w : ℚ)/2 + off)) ((fw : Int) - 1) ∧
    (computeRoi fh fw h w pos off).ys =
        max 0 (roundHalfEven (pos.2 - (h : ℚ)/2 - off)) ∧
    (computeRoi fh fw h w pos off).ye =
        min (roundHalfEven (pos.2 + (h : ℚ)/2 + off)) ((fh : Int) - 1) ∧
    RoiWithinFrame (computeRoi fh fw h w pos off) fh fw := by
  have hwq : (0 : ℚ) ≤ (w : ℚ) / 2 := by positivity
  have hhq : (0 : ℚ) ≤ (h : ℚ) / 2 := by positivity
  have hfwq : ((fw - 1 : Nat) : ℚ) = ((fw : Int) - 1 : Int) := by push_cast [hfw]; ring
  have hfhq : ((fh - 1 : Nat) : ℚ) = ((fh : Int) - 1 : Int) := by push_cast [hfh]; ring
  have hxe0 : 0 ≤ roundHalfEven (pos.1 + (w : ℚ)/2 + off) :=
    roundHalfEven_nonneg _ (by linarith)
  have hye0 : 0 ≤ roundHalfEven (pos.2 + (h : ℚ)/2 + off) :=
    roundHalfEven_nonneg _ (by linarith)
  have hxs1 : roundHalfEven (pos.1 - (w : ℚ)/2 - off) ≤ (fw : Int) - 1 :=
    roundHalfEven_le_of_le _ _ (by rw [← hfwq]; linarith)
  have hys1 : roundHalfEven (pos.2 - (h : ℚ)/2 - off) ≤ (fh : Int) - 1 :=
    roundHalfEven_le_of_le _ _ (by rw [← hfhq]; linarith)
  have exs : (computeRoi fh fw h w pos off).xs =
      (if roundHalfEven (pos.1 - (w : ℚ)/2 - off) < 0 then 0
        else roundHalfEven (pos.1 - (w : ℚ)/2 - off)) := rfl
  have exe : (computeRoi fh fw h w pos off).xe =
      (if (fw : Int) ≤ roundHalfEven (pos.1 + (w : ℚ)/2 + off) then (fw : Int) - 1
        else roundHalfEven (pos.1 + (w : ℚ)/2 + off)) := rfl
  have eys : (computeRoi fh fw h w pos off).ys =
      (if roundHalfEven (pos.2 - (h : ℚ)/2 - off) < 0 then 0
        else roundHalfEven (pos.2 - (h : ℚ)/2 - off)) := rfl
  have eye : (computeRoi fh fw h w pos off).ye =
      (if (fh : Int) ≤ roundHalfEven (pos.2 + (h : ℚ)/2 + off) then (fh : Int) - 1
        else roundHalfEven (pos.2 + (h : ℚ)/2 + off)) := rfl
  refine ⟨?_, ?_, ?_, ?_, ?_, ?_, ?_, ?_, ?_, ?_, ?_, ?_⟩ <;>
    simp only [RoiWithinFrame, exs, exe, eys, eye] <;> split_ifs <;> omega

/-- Witness for C2 at a concrete in-frame position. -/
theorem roi_clamp_bounds_witness :
    RoiWithinFrame (computeRoi 100 100 10 10 ((3 : ℚ), (97 : ℚ)) 50) 100 100 :=
  (roi_clamp_bounds 100 100 10 10 (3, 97) 50 (by decide) (by decide) (by decide)
    (by decide) (by decide) (by decide) (by decide)).2.2.2.2

/-- C3: the trajectory is the left scan of the per-frame refinement: the
position fed into frame `i+1`'s ROI computation is exactly the refined
position from frame `i` (frame 0 uses the supplied initial position), and
element `i` of the trajectory is frame `i`'s refined position. -/
theorem tracking_is_scan (P : Primitives) (frames : List Mat) (templ : Mat)
    (p0 : ℚ × ℚ) (off : ℚ) (ms : Nat) (pts : List (ℚ × ℚ))
    (h : template_tracking P frames templ p0 off ms = some pts) :
    pts.length = frames.length ∧
      ∀ i : Nat, i < frames.length →
        find_max_subpixel_roi P (frames.getD i []) templ
          (if i = 0 then p0 else pts.getD (i - 1) (0, 0)) off ms =
          some (pts.getD i (0, 0)) := by
  induction frames generalizing p0 pts with
  | nil =>
    unfold template_tracking at h
    cases h
    exact ⟨rfl, fun i hi => absurd hi (by simp)⟩
  | cons f fs ih =>
    unfold template_tracking at h
    cases hfind : find_max_subpixel_roi P f templ p0 off ms with
    | none =>
      rw [hfind, Option.none_bind] at h
      exact Option.noConfusion h
    | some p =>
      rw [hfind, Option.some_bind] at h
      cases htrack : template_tracking P fs templ p off ms with
      | none =>
        rw [htrack, Option.map_none'] at h
        exact Option.noConfusion h
      | some rest =>
        rw [htrack, Option.map_some'] at h
        cases h
        obtain ⟨hlen, hstep⟩ := ih p rest htrack
        refine ⟨by simp [hlen], ?_⟩
        intro i hi
        cases i with
        | zero => simpa using hfind
        | succ i1 =>
          cases i1 with
          | zero =>
            have h0 := hstep 0 (by simpa using hi)
            simpa using h0
          | succ j =>
            have hj := hstep (j + 1) (by simpa using hi)
            simpa using hj

/-- Witness for C3 on a concrete one-frame run. -/
theorem tracking_is_scan_witness :
    ∃ pts : List (ℚ × ℚ), template_tracking constP [[[1]]] [[1]] (0, 0) 0 1 = some pts ∧
      pts.length = 1 :=
  ⟨_, rfl, (tracking_is_scan constP [[[1]]] [[1]] (0, 0) 0 1 _ rfl).1⟩

/-- C4: a successful run of `template_tracking` returns one position per
input frame, and a successful run of `template_tracking_dual` returns one
pair of positions per input frame. -/
theorem trajectory_length (P : Primitives) (frames : List Mat) (templ lt rt : Mat)
    (p0 : ℚ × ℚ) (q0 : (ℚ × ℚ) × (ℚ × ℚ)) (off : ℚ) (ms : Nat) :
    (∀ pts, template_tracking P frames templ p0 off ms = some pts →
      pts.length = frames.length) ∧
    (∀ ps, template_tracking_dual P frames lt rt q0 off ms = some ps →
      ps.length = frames.length) :=
  ⟨fun pts h => template_tracking_length P frames templ p0 off ms pts h,
   fun ps h => template_tracking_dual_length P frames lt rt q0 off ms ps h⟩

/-- Witness for C4 on concrete one-frame runs. -/
theorem trajectory_length_witness :
    ∃ pts : List (ℚ × ℚ), ∃ ps : List ((ℚ × ℚ) × (ℚ × ℚ)),
      template_tracking constP [[[1]]] [[1]] (0, 0) 0 1 = some pts ∧ pts.length = 1 ∧
      template_tracking_dual constP [[[1]]] [[1]] [[1]] ((0, 0), (0, 0)) 0 1 = some ps ∧
      ps.length = 1 :=
  ⟨_, _, rfl,
    (trajectory_length constP [[[1]]] [[1]] [[1]] [[1]] (0, 0) ((0, 0), (0, 0)) 0 1).1 _ rfl,
    rfl,
    (trajectory_length constP [[[1]]] [[1]] [[1]] [[1]] (0, 0) ((0, 0), (0, 0)) 0 1).2 _ rfl⟩

/-- C5: the left components of a successful dual run are exactly the
single-template run with the left template and left initial position, the
right components likewise; with equal templates and equal initial
positions the two component trajectories coincide. -/
theorem dual_tracker_projections (P : Primitives) (frames : List Mat) (lt rt : Mat)
    (pl0 pr0 : ℚ × ℚ) (off : ℚ) (ms : Nat) (ps : List ((ℚ × ℚ) × (ℚ × ℚ)))
    (h : template_tracking_dual P frames lt rt (pl0, pr0) off ms = some ps) :
    template_tracking P frames lt pl0 off ms = some (ps.map Prod.fst) ∧
    template_tracking P frames rt pr0 off ms = some (ps.map Prod.snd) ∧
    (lt = rt → pl0 = pr0 → ps.map Prod.fst = ps.map Prod.snd) := by
  rw [template_tracking_dual_eq] at h
  cases hls : template_tracking P frames lt pl0 off ms with
  | none =>
    rw [hls, Option.none_bind] at h
    exact Option.noConfusion h
  | some ls =>
    rw [hls, Option.some_bind] at h
    cases hrs : template_tracking P frames rt pr0 off ms with
    | none =>
      rw [hrs, Option.map_none'] at h
      exact Option.noConfusion h
    | some rs =>
      rw [hrs, Option.map_some'] at h
      cases h
      have hl1 := template_tracking_length P frames lt pl0 off ms ls hls
      have hr1 := template_tracking_length P frames rt pr0 off ms rs hrs
      refine ⟨?_, ?_, ?_⟩
      · rw [List.map_fst_zip ls rs (by omega)]
      · rw [List.map_snd_zip ls rs (by omega)]
      · intro hteq hpeq
        subst hteq
        subst hpeq
        rw [hls] at hrs
        cases hrs
        rw [List.map_fst_zip ls ls le_rfl, List.map_snd_zip ls ls le_rfl]

/-- Witness for C5 on a concrete dual run with equal templates. -/
theorem dual_tracker_projections_witness :
    ∃ ps : List ((ℚ × ℚ) × (ℚ × ℚ)),
      template_tracking_dual constP [[[1]]] [[1]] [[1]] ((0, 0), (0, 0)) 0 1 = some ps ∧
      ps.map Prod.fst = ps.map Prod.snd :=
  ⟨_, rfl,
    (dual_tracker_projections constP [[[1]]] [[1]] [[1]] (0, 0) (0, 0) 0 1 _ rfl).2.2 rfl rfl⟩

/-- C9 counterexample: on the empty frame sequence both trackers return an
empty trajectory instead of failing fast with a configuration error. -/
theorem tracking_empty_counterexample :
    template_tracking constP [] [[1]] (0, 0) 50 11 = some [] ∧
      template_tracking_dual constP [] [[1]] [[1]] ((0, 0), (0, 0)) 50 11 = some [] :=
  ⟨rfl, rfl⟩

/-- C9 (amended): neither tracker performs any fail-fast validation: on an
empty frame sequence both return the empty trajectory without error; a
degenerate template could only surface as a per-frame error from the
correlation primitive inside the loop. -/
theorem tracking_no_failfast (P : Primitives) (t lt rt : Mat) (p0 : ℚ × ℚ)
    (q0 : (ℚ × ℚ) × (ℚ × ℚ)) (off : ℚ) (ms : Nat) :
    template_tracking P [] t p0 off ms = some [] ∧
      template_tracking_dual P [] lt rt q0 off ms = some [] :=
  ⟨rfl, rfl⟩

/-- C7 counterexample: a maximum on the top row (closer than
`(size−1)/2 = 1` to the top edge) does not make `__pull_matrix` fail: it
returns a window (with wrapped rows) instead. -/
theorem pull_matrix_edge_counterexample :
    pull_matrix 3 [[(1:ℚ),2,3],[4,5,6],[7,8,9]] (1, 0) =
      some [[7,8,9],[1,2,3],[4,5,6]] := by decide

/-- C6: for an odd window size whose square neighborhood fits inside the
surface, `__pull_matrix` returns the `size × size` window centred on the
maximum: entry `(r, c)` is the surface value at row `my − k + r`, column
`mx − k + c`, with `k = (size−1)/2`. -/
theorem pull_matrix_centered_window (size : Nat) (surface : Mat) (mx my W : Nat)
    (hodd : size % 2 = 1) (hrows : ∀ row ∈ surface, row.length = W)
    (hmy1 : (size - 1) / 2 ≤ my) (hmy2 : my + (size - 1) / 2 < surface.length)
    (hmx1 : (size - 1) / 2 ≤ mx) (hmx2 : mx + (size - 1) / 2 < W) :
    ∃ mat, pull_matrix size surface ((mx : Int), (my : Int)) = some mat ∧
      mat.length = size ∧ (∀ row ∈ mat, row.length = size) ∧
      ∀ r c : Nat, r < size → c < size →
        getE mat r c = getE surface (my - (size - 1) / 2 + r) (mx - (size - 1) / 2 + c) := by
  have hiso : ∀ r : Nat, r < 2 * ((size - 1) / 2) + 1 →
      (pyGet surface ((my : Int) - ((size - 1) / 2 : Nat) + r)).isSome := by
    intro r hr
    apply pyGet_isSome
    · omega
    · omega
  obtain ⟨mat, hsome, hlen, hget⟩ := seqRows_eq_some surface (mx : Int) ((size - 1) / 2)
    ((my : Int) - ((size - 1) / 2 : Nat)) (2 * ((size - 1) / 2) + 1) hiso
  have hpm : pull_matrix size surface ((mx : Int), (my : Int)) = some mat := hsome
  have hrow_of : ∀ r : Nat, r < 2 * ((size - 1) / 2) + 1 →
      ∃ srow, surface.get? (my - (size - 1) / 2 + r) = some srow ∧
        mat.get? r = some (pySlice srow ((mx : Int) - ((size - 1) / 2 : Nat))
          ((mx : Int) + ((size - 1) / 2 : Nat) + 1)) := by
    intro r hr
    have hres := hget r hr
    rw [pyGet_nonneg _ _ (by omega)] at hres
    rw [show ((my : Int) - ((size - 1) / 2 : Nat) + r).toNat = my - (size - 1) / 2 + r
      by omega] at hres
    cases hsrow : surface.get? (my - (size - 1) / 2 + r) with
    | none =>
      rw [List.get?_eq_none] at hsrow
      omega
    | some srow =>
      rw [hsrow, Option.map_some'] at hres
      exact ⟨srow, rfl, hres⟩
  refine ⟨mat, hpm, by omega, ?_, ?_⟩
  · intro row hrow
    obtain ⟨r, hgr⟩ := List.mem_iff_get?.mp hrow
    have hr : r < 2 * ((size - 1) / 2) + 1 := by
      by_contra hcon
      rw [List.get?_eq_none.mpr (by omega)] at hgr
      exact Option.noConfusion hgr
    obtain ⟨srow, hsrow, hmatr⟩ := hrow_of r hr
    rw [hgr] at hmatr
    cases hmatr
    have hsW : srow.length = W := hrows srow (List.get?_mem hsrow)
    rw [pySlice_length srow _ _ (by omega) (by omega) (by omega)]
    omega
  · intro r c hrs hcs
    have hr : r < 2 * ((size - 1) / 2) + 1 := by omega
    obtain ⟨srow, hsrow, hmatr⟩ := hrow_of r hr
    have hsW : srow.length = W := hrows srow (List.get?_mem hsrow)
    unfold getE
    rw [hmatr, Option.some_bind, hsrow, Option.some_bind]
    rw [pySlice_get? srow _ _ (by omega) (by omega) c (by omega)]
    rw [show ((mx : Int) - ((size - 1) / 2 : Nat)).toNat + c = mx - (size - 1) / 2 + c
      by omega]

/-- Witness for C6 at a concrete surface and centred maximum. -/
theorem pull_matrix_centered_window_witness :
    ∃ mat, pull_matrix 3 [[(1:ℚ),2,3],[4,5,6],[7,8,9]] ((1 : Int), (1 : Int)) = some mat ∧
      mat.length = 3 := by
  obtain ⟨mat, h1, h2, -, -⟩ := pull_matrix_centered_window 3 [[(1:ℚ),2,3],[4,5,6],[7,8,9]]
    1 1 3 (by decide) (by decide) (by decide) (by decide) (by decide) (by decide)
  exact ⟨mat, h1, h2⟩

/-- C10: when the maximum is too close to the top edge (`my < k`) while
`my + k < H` and the columns are at least `k` from both horizontal edges,
`__pull_matrix` does not raise: the rows requested at negative indices
`i = my − k + r < 0` are taken from the bottom of the surface (Python row
`H + i`), silently mixing rows from opposite edges. -/
theorem pull_matrix_wraps_negative_rows (size : Nat) (surface : Mat) (mx my W : Nat)
    (hrows : ∀ row ∈ surface, row.length = W)
    (hmy : my < (size - 1) / 2) (hmyH : my + (size - 1) / 2 < surface.length)
    (hmx1 : (size - 1) / 2 ≤ mx) (hmx2 : mx + (size - 1) / 2 < W) :
    ∃ mat, pull_matrix size surface ((mx : Int), (my : Int)) = some mat ∧
      mat.length = 2 * ((size - 1) / 2) + 1 ∧
      ∀ r c : Nat, my + r < (size - 1) / 2 → c < 2 * ((size - 1) / 2) + 1 →
        getE mat r c =
          getE surface (surface.length + my + r - (size - 1) / 2)
            (mx - (size - 1) / 2 + c) := by
  have hiso : ∀ r : Nat, r < 2 * ((size - 1) / 2) + 1 →
      (pyGet surface ((my : Int) - ((size - 1) / 2 : Nat) + r)).isSome := by
    intro r hr
    apply pyGet_isSome
    · omega
    · omega
  obtain ⟨mat, hsome, hlen, hget⟩ := seqRows_eq_some surface (mx : Int) ((size - 1) / 2)
    ((my : Int) - ((size - 1) / 2 : Nat)) (2 * ((size - 1) / 2) + 1) hiso
  refine ⟨mat, hsome, hlen, ?_⟩
  intro r c hneg hcs
  have hr : r < 2 * ((size - 1) / 2) + 1 := by omega
  have hres := hget r hr
  rw [pyGet_neg _ _ (by omega) (by omega)] at hres
  rw [show ((surface.length : Int) + ((my : Int) - ((size - 1) / 2 : Nat) + r)).toNat =
    surface.length + my + r - (size - 1) / 2 by omega] at hres
  cases hsrow : surface.get? (surface.length + my + r - (size - 1) / 2) with
  | none =>
    rw [List.get?_eq_none] at hsrow
    omega
  | some srow =>
    rw [hsrow, Option.map_some'] at hres
    have hsW : srow.length = W := hrows srow (List.get?_mem hsrow)
    unfold getE
    rw [hres, Option.some_bind, hsrow, Option.some_bind]
    rw [pySlice_get? srow _ _ (by omega) (by omega) c (by omega)]
    rw [show ((mx : Int) - ((size - 1) / 2 : Nat)).toNat + c = mx - (size - 1) / 2 + c
      by omega]

/-- Witness for C10: a maximum on the top row pulls the surface's bottom
row into the window's first row. -/
theorem pull_matrix_wraps_negative_rows_witness :
    ∃ mat, pull_matrix 3 [[(1:ℚ),2,3],[4,5,6],[7,8,9]] ((1 : Int), (0 : Int)) = some mat ∧
      getE mat 0 0 = getE [[(1:ℚ),2,3],[4,5,6],[7,8,9]] 2 0 := by
  obtain ⟨mat, h1, -, h3⟩ := pull_matrix_wraps_negative_rows 3 [[(1:ℚ),2,3],[4,5,6],[7,8,9]]
    1 0 3 (by decide) (by decide) (by decide) (by decide) (by decide)
  exact ⟨mat, h1, by simpa using h3 0 0 (by decide) (by decide)⟩

/-- C8: under the spec contract for the correlation primitive, a clamped
ROI smaller than the template in either dimension makes the per-frame
matching step fail (no position is returned); an at-least-template-sized
ROI makes the correlation step succeed with a surface of size
`(roi_h − templ_h + 1) × (roi_w − templ_w + 1)` on which the discrete
global maximum is located. -/
theorem correlation_size_and_roi_failure (P : Primitives) (frame templ : Mat)
    (pos : ℚ × ℚ) (off : ℚ) (ms : Nat) (hm : MatchSpec P.matchTemplate) :
    ((shapeOf (roiOf frame templ pos off)).1 < (shapeOf templ).1 ∨
        (shapeOf (roiOf frame templ pos off)).2 < (shapeOf templ).2 →
      find_max_subpixel_roi P frame templ pos off ms = none) ∧
    ((shapeOf templ).1 ≤ (shapeOf (roiOf frame templ pos off)).1 →
      (shapeOf templ).2 ≤ (shapeOf (roiOf frame templ pos off)).2 →
      ∃ res, P.matchTemplate (roiOf frame templ pos off) templ = some res ∧
        res.length =
          (shapeOf (roiOf frame templ pos off)).1 - (shapeOf templ).1 + 1 ∧
        (∀ row ∈ res,
          row.length = (shapeOf (roiOf frame templ pos off)).2 - (shapeOf templ).2 + 1) ∧
        ∃ mv, getE res (minMaxLoc res).2 (minMaxLoc res).1 = some mv ∧
          ∀ r c : Nat, ∀ v : ℚ, getE res r c = some v → v ≤ mv) := by
  constructor
  · intro hsmall
    unfold find_max_subpixel_roi
    rw [hm.small _ _ hsmall, Option.none_bind]
  · intro h1 h2
    obtain ⟨res, hres, hlen, hrows⟩ := hm.ok _ _ h1 h2
    refine ⟨res, hres, hlen, hrows, ?_⟩
    have hres0 : 0 < res.length := by omega
    cases hrow0 : res.get? 0 with
    | none =>
      rw [List.get?_eq_none] at hrow0
      omega
    | some row0 =>
      have hrow0len : 0 < row0.length := by
        rw [hrows row0 (List.get?_mem hrow0)]
        omega
      cases hv0 : row0.get? 0 with
      | none =>
        rw [List.get?_eq_none] at hv0
        omega
      | some v0 =>
        have hE : getE res 0 0 = some v0 := by
          unfold getE
          rw [hrow0, Option.some_bind, hv0]
        exact minMaxLoc_spec res 0 0 v0 hE

/-- Helper: the concrete ROI rectangle for a one-pixel frame and template
at the origin with no margin. -/
theorem rectOf_small_eval : rectOf [[(0:ℚ)]] [[(0:ℚ)]] (0, 0) 0 = ⟨0, 0, 0, 0⟩ := by
  norm_num [rectOf, shapeOf, computeRoi, roundHalfEven, Int.fract]

/-- Helper: the corresponding ROI pixel data is empty. -/
theorem roiOf_small_eval : roiOf [[(0:ℚ)]] [[(0:ℚ)]] (0, 0) 0 = [] := by
  rw [roiOf, rectOf_small_eval]
  rfl

/-- Witness for C8: a one-pixel frame whose clamped ROI is empty makes the
per-frame step fail. -/
theorem correlation_size_and_roi_failure_witness :
    find_max_subpixel_roi trivP [[(0:ℚ)]] [[(0:ℚ)]] (0, 0) 0 1 = none :=
  (correlation_size_and_roi_failure trivP [[(0:ℚ)]] [[(0:ℚ)]] (0, 0) 0 1
    specMatchTemplate_spec).1 (by rw [roiOf_small_eval]; decide)
